import Mathlib

/-
  Verification of the alderaan detrending / TTV-estimation pipeline.

  Shallow embedding of the relevant routines from:
    - src/alderaan/detrend.py       (make_transitmask, identify_gaps, flatten_with_gp)
    - src/bin/detrend_and_estimate_ttvs.py
        (GP-detrending fallback ladder, slide TTV fit, independent refit
         selection, OMC outlier flagging, AIC model selection)

  Numerical conventions: machine floats are modelled as exact rationals;
  numpy arrays as Lists; NaN-able results as Option.  Opaque external
  solvers (pymc3/celerite2 optimizers and samplers, astropy mad_std,
  Lomb-Scargle) enter as oracle parameters.
-/

namespace Alderaan

/-! ## numpy-style list helpers -/

/-- Indices at which a predicate holds, in increasing order (np.where). -/
def npWhere (p : α → Bool) (l : List α) : List ℕ :=
  (l.enum.filter (fun x => p x.2)).map (fun x => x.1)

/-- Sort ascending and remove duplicates (np.unique / np.sort of a merged set). -/
def sortUnique (l : List ℕ) : List ℕ :=
  (l.insertionSort (· ≤ ·)).dedup

/-- Minimum of a list, 0 for the empty list (np.min; empty case unreachable in use). -/
def listMinD (l : List ℚ) : ℚ :=
  match l with
  | [] => 0
  | x :: xs => xs.foldl min x

/-- Maximum of a list, 0 for the empty list (np.max). -/
def listMaxD (l : List ℚ) : ℚ :=
  match l with
  | [] => 0
  | x :: xs => xs.foldl max x

/-- numpy median: middle element of the sorted list for odd length, mean of the
two middle elements for even length; 0 for the empty list (numpy returns NaN). -/
def npMedian (l : List ℚ) : ℚ :=
  let s := l.insertionSort (· ≤ ·)
  let n := l.length
  if n = 0 then 0
  else if n % 2 = 1 then s.getD (n / 2) 0
  else (s.getD (n / 2 - 1) 0 + s.getD (n / 2) 0) / 2

/-- Boolean rejection indexing x[~flags]: keep entries whose flag is false. -/
def npReject (l : List α) (flags : List Bool) : List α :=
  (l.zip flags).filterMap (fun p => if p.2 then none else some p.1)

/-- Successive differences x[1:] - x[:-1] (np.diff). -/
def npDiffZ (l : List ℤ) : List ℤ :=
  List.zipWith (fun a b => a - b) l.tail l

/-- Successive differences x[1:] - x[:-1] for rational arrays. -/
def npDiffQ (l : List ℚ) : List ℚ :=
  List.zipWith (fun a b => a - b) l.tail l

/-! ## identify_gaps (detrend.py lines 59-103) -/

/-- The value of the expression at detrend.py line 78,
mask = np.sum(np.atleast_2d(lc.mask, 0) == 0).
np.atleast_2d called with two arguments returns a Python list of two arrays;
comparing that list with the integer 0 yields the plain Python bool False, and
np.sum(False) is the scalar 0 -- independent of the contents of lc.mask. -/
def identify_gaps_mask_scalar (mask : List Bool) : ℤ := 0

/-- Time-gap boundary candidates (detrend.py lines 81-84):
breaks = [1] ++ diff(cadno); indices with breaks > break_tolerance;
padded in front with 0 and behind with len(breaks)+1. -/
def gapBreakLocs (cadno : List ℤ) (break_tolerance : ℕ) : List ℕ :=
  let breaks := (1 : ℤ) :: npDiffZ cadno
  let locs := npWhere (fun d => decide ((break_tolerance : ℤ) < d)) breaks
  0 :: locs ++ [breaks.length + 1]

/-- Flux-jump boundary candidates (detrend.py lines 87-90):
jumps = [0] ++ diff(flux); big_jump by the MAD criterion with the hardcoded
threshold 5.0 (the jump_tolerance argument is not referenced in the body);
jump_locs = np.where(mask * big_jump) where mask is the scalar 0 of line 78,
so the product is identically zero and no index is ever selected.
madStdVal stands for the opaque astropy.stats.mad_std(jumps) value. -/
def gapJumpLocs (flux : List ℚ) (madStdVal : ℚ) (mask : List Bool) : List ℕ :=
  let jumps := (0 : ℚ) :: npDiffQ flux
  let bigJump := jumps.map (fun j => decide ((5 : ℚ) < |j - npMedian jumps| / madStdVal))
  npWhere (fun bj => decide (identify_gaps_mask_scalar mask * (if bj then (1 : ℤ) else 0) ≠ 0)) bigJump

/-- Merge nearly-consecutive boundaries (detrend.py lines 95-101): flag an entry
bad when it is closer than break_tolerance to its predecessor; if the final
entry is flagged, unflag it and flag its predecessor instead; drop flagged. -/
def gapMergeClose (break_tolerance : ℕ) (gaps : List ℕ) : List ℕ :=
  let bad := false :: List.zipWith (fun a b => decide ((a : ℤ) - (b : ℤ) < (break_tolerance : ℤ))) gaps.tail gaps
  let bad := if bad.getLast? = some true ∧ 2 ≤ bad.length
             then bad.dropLast.dropLast ++ [true, false]
             else bad
  npReject gaps bad

/-- identify_gaps (detrend.py lines 59-103).  jump_tolerance is accepted but,
as in the source body, never used; madStdVal is the opaque astropy mad_std. -/
def identify_gaps (cadno : List ℤ) (flux : List ℚ) (mask : List Bool)
    (break_tolerance : ℕ) (jump_tolerance : ℚ) (madStdVal : ℚ) : List ℕ :=
  let gaps := sortUnique (gapBreakLocs cadno break_tolerance ++ gapJumpLocs flux madStdVal mask)
  gapMergeClose break_tolerance gaps

/-! ## degree-2 least squares (np.polyfit(x, y, 2)) -/

/-- Sum of k-th powers of the sample abscissae. -/
def powSum (xs : List ℚ) (k : ℕ) : ℚ := (xs.map (fun x => x ^ k)).sum

/-- Sum of x^k * y over the paired samples. -/
def mixSum (xs ys : List ℚ) (k : ℕ) : ℚ :=
  (List.zipWith (fun x y => x ^ k * y) xs ys).sum

/-- Explicit 3x3 determinant. -/
def det3 (a b c d e f g h i : ℚ) : ℚ :=
  a * (e * i - f * h) - b * (d * i - f * g) + c * (d * h - e * g)

/-- Determinant of the normal-equation (Gram) matrix for a degree-2 fit. -/
def gramDet (xs : List ℚ) : ℚ :=
  det3 (powSum xs 4) (powSum xs 3) (powSum xs 2)
       (powSum xs 3) (powSum xs 2) (powSum xs 1)
       (powSum xs 2) (powSum xs 1) (powSum xs 0)

/-- np.polyfit(xs, ys, 2): least-squares quadratic coefficients (a, b, c),
highest power first, computed here by Cramer's rule on the normal equations;
this agrees with numpy's least-squares solution whenever the Gram matrix is
nonsingular. -/
def polyfit2 (xs ys : List ℚ) : ℚ × ℚ × ℚ :=
  let s0 := powSum xs 0
  let s1 := powSum xs 1
  let s2 := powSum xs 2
  let s3 := powSum xs 3
  let s4 := powSum xs 4
  let t0 := mixSum xs ys 0
  let t1 := mixSum xs ys 1
  let t2 := mixSum xs ys 2
  let d := det3 s4 s3 s2 s3 s2 s1 s2 s1 s0
  (det3 t2 s3 s2 t1 s2 s1 t0 s1 s0 / d,
   det3 s4 t2 s2 s3 t1 s1 s2 t0 s0 / d,
   det3 s4 s3 t2 s3 s2 t1 s2 s1 t0 / d)

/-- Leading coefficient of the fitted parabola (quad_coeffs[0]). -/
def quadA (xs ys : List ℚ) : ℚ := (polyfit2 xs ys).1

/-- Linear coefficient of the fitted parabola (quad_coeffs[1]). -/
def quadB (xs ys : List ℚ) : ℚ := (polyfit2 xs ys).2.1

/-- Vertex abscissa qtc_min = -b / (2a) of the fitted parabola
(detrend_and_estimate_ttvs.py line 1040). -/
def quadVertex (xs ys : List ℚ) : ℚ := -(quadB xs ys) / (2 * quadA xs ys)

/-- The fitted transit time tts[i] = np.mean([qtc_min, np.median(tcfit)])
(detrend_and_estimate_ttvs.py line 1045). -/
def slideTTOf (xs ys : List ℚ) : ℚ := (quadVertex xs ys + npMedian xs) / 2

/-- Square of the reported uncertainty qtc_err = np.sqrt(1/quad_coeffs[0])
(line 1042); tracked as its square 1/a to stay inside the rationals. -/
def slideErrSqOf (xs ys : List ℚ) : ℚ := 1 / quadA xs ys

/-! ## slide TTV retained-point loop (detrend_and_estimate_ttvs.py lines 1004-1029) -/

/-- One pass of the retained-point selection at a fixed delta_chisq: take grid
points whose smoothed chi-square lies below min + delta, then drop points far
from the local median (lines 1011-1022).  When the diff list is empty numpy
yields a NaN spacing and the faraway comparison is False; rational division by
the 0 default gives the same kept/dropped outcome. -/
def retainAt (tc x2 : List ℚ) (delta : ℚ) : List ℚ × List ℚ :=
  let mc := listMinD x2
  let pairs := (tc.zip x2).filter (fun p => decide (p.2 < mc + delta))
  let tcfit := pairs.map (fun p => p.1)
  let x2fit := pairs.map (fun p => p.2)
  let spacing := npMedian (npDiffQ tcfit)
  let faraway := tcfit.map (fun t => decide (1 + (tcfit.length : ℚ) / 2 < |t - npMedian tcfit| / spacing))
  (npReject tcfit faraway, npReject x2fit faraway)

/-- The widening loop (lines 1007-1029): delta_chisq starts at 1, is
incremented at the top of each pass, and the loop stops once at least 3 points
survive or delta_chisq reaches 9.  fuel counts the remaining passes. -/
def slideLoopGo (tc x2 : List ℚ) : ℕ → ℕ → List ℚ × List ℚ
  | 0, delta => retainAt tc x2 (delta : ℚ)
  | fuel + 1, delta =>
    let r := retainAt tc x2 (delta : ℚ)
    if 3 ≤ r.1.length ∨ 9 ≤ delta then r
    else slideLoopGo tc x2 fuel (delta + 1)

/-- Retained (tcfit, x2fit) after the widening loop: passes run at
delta_chisq = 2, 3, ..., 9. -/
def slideRetained (tc x2 : List ℚ) : List ℚ × List ℚ :=
  slideLoopGo tc x2 8 2

/-- Per-transit slide fit decision (lines 972-1081), starting from the
boxcar-smoothed chi-square values on the slide grid.  Returns none when the
transit time and uncertainty are set to NaN, otherwise some (tts, err^2):
the overlap branch (lines 1078-1081), the too-few-points branch (1032-1035),
the inverted-parabola check (1049-1052) and the out-of-range check
(1055-1058), in source order. -/
def slideFitTransit (overlap : Bool) (tc x2 : List ℚ) : Option (ℚ × ℚ) :=
  if overlap then none
  else
    let r := slideRetained tc x2
    let tcfit := r.1
    let x2fit := r.2
    if tcfit.length < 3 then none
    else
      let a := quadA tcfit x2fit
      let tts := slideTTOf tcfit x2fit
      if a ≤ 0 then none
      else if tts < listMinD tcfit ∨ listMaxD tcfit < tts then none
      else some (tts, slideErrSqOf tcfit x2fit)

/-! ## independent-refit selection (detrend_and_estimate_ttvs.py lines 1095-1103) -/

/-- Per-planet refit flags: slide_error entries are Option values with none
standing for NaN (after the flagging of lines 1086-1092).  refit starts as
isnan(slide_error); if every slide fit worked the code sets two randomly
chosen entries (indices r1, r2 from np.random.randint) to True. -/
def mkRefit (err : List (Option ℚ)) (r1 r2 : ℕ) : List Bool :=
  let refit := err.map Option.isNone
  if refit.all (fun b => !b) then (refit.set r1 true).set r2 true
  else refit

/-! ## GP-detrending fallback ladder (detrend_and_estimate_ttvs.py lines 591-599) -/

/-- Kernel choice passed to flatten_with_gp: rotation stands for the source
string 'RotationTerm', sho for 'SHOTerm'. -/
inductive KChoice where
  | rotation
  | sho
deriving DecidableEq

/-- The try/except ladder around detrend.flatten_with_gp (lines 591-599,
repeated at 625-633, 1828-1836, 1856-1864): attempt (kterm, correct_ramp)
models one call, returning ok on success or error on any raised exception.
The first call uses the defaults (RotationTerm, ramp on); on failure the call
is retried with the ramp off; on a second failure the final call uses SHOTerm
with the ramp off and is not wrapped in any handler. -/
def detrend_with_fallback (attempt : KChoice → Bool → Except ε α) : Except ε α :=
  match attempt KChoice.rotation true with
  | Except.ok v => Except.ok v
  | Except.error _ =>
    match attempt KChoice.rotation false with
    | Except.ok v => Except.ok v
    | Except.error _ => attempt KChoice.sho false

/-! ## OMC model selection (detrend_and_estimate_ttvs.py lines 1426-1498) -/

/-- np.argmin: index of the first minimum.  Auxiliary fold carrying the
current index, best index and best value. -/
def npArgminGo : List ℚ → ℕ → ℕ → ℚ → ℕ
  | [], _, bi, _ => bi
  | x :: xs, i, bi, bv =>
    if x < bv then npArgminGo xs (i + 1) i x
    else npArgminGo xs (i + 1) bi bv

/-- np.argmin over a rational list (0 on the empty list). -/
def npArgmin : List ℚ → ℕ
  | [] => 0
  | x :: xs => npArgminGo xs 1 0 x

/-- Parameter count (lines 1480-1483): k = 3 for the Matern-3/2 GP
(polyorder = -1) and the sinusoid (polyorder = 0), else polyorder + 1. -/
def kOfPolyorder (po : ℤ) : ℤ := if po ≤ 0 then 3 else po + 1

/-- AIC of one candidate (line 1485):
n * log(sum(residuals[inliers]^2) / count(inliers)) + 2k, where the inliers
are the points not flagged by the mixture model.  lg abstracts np.log; the
theorems hold for every lg, in particular for the exact logarithm. -/
def aicScore (lg : ℚ → ℚ) (n : ℕ) (residuals : List ℚ) (bad : List Bool) (po : ℤ) : ℚ :=
  let inres := npReject residuals bad
  (n : ℚ) * lg ((inres.map (fun x => x ^ 2)).sum / (inres.length : ℚ)) + 2 * (kOfPolyorder po : ℚ)

/-- The aiclist built by the candidate loop (lines 1436-1489): candidate j of
the fits list corresponds to polyorder = j - 1 (so j = 0 is the Matern GP,
j = 1 the sinusoid, j ≥ 2 the polynomial of order j - 1).  Each fit carries
the residual series and the mixture-model outlier flags for that candidate. -/
def omcAIClist (lg : ℚ → ℚ) (n : ℕ) (fits : List (List ℚ × List Bool)) : List ℚ :=
  (fits.enum).map (fun jf => aicScore lg n jf.2.1 jf.2.2 ((jf.1 : ℤ) - 1))

/-- Selected polyorder (line 1498): np.argmin(aiclist) - 1. -/
def omcSelectedPolyorder (lg : ℚ → ℚ) (n : ℕ) (fits : List (List ℚ × List Bool)) : ℤ :=
  (npArgmin (omcAIClist lg n fits) : ℤ) - 1

/-! ## make_transitmask (detrend.py lines 30-56) -/

/-- make_transitmask: start from an all-false mask, restrict tts to the
observed time range, and OR in |time - t0| < masksize for each retained
transit time (the numpy boolean += accumulates a logical or). -/
def make_transitmask (time tts : List ℚ) (masksize : ℚ) : List Bool :=
  let tts_here := tts.filter (fun t => decide (listMinD time ≤ t) && decide (t ≤ listMaxD time))
  tts_here.foldl
    (fun acc t0 => List.zipWith (fun b x => b || decide (|x - t0| < masksize)) acc time)
    (time.map (fun _ => false))

/-! ## OMC outlier flagging (detrend_and_estimate_ttvs.py lines 1419-1423) -/

/-- Mirror boundary index (scipy.ndimage mode='mirror'): reflect about the
edge samples without repeating them; total and valued in [0, n) for n > 0. -/
def reflectIdx (n : ℕ) (i : ℤ) : ℕ :=
  if n ≤ 1 then 0
  else
    let p : ℤ := 2 * (n : ℤ) - 2
    let m := i % p
    if m < (n : ℤ) then m.toNat else (p - m).toNat

/-- scipy.ndimage.median_filter(y, size=5, mode='mirror'): median of the
centred window of width 5 with mirrored boundary indices. -/
def median_filter5 (y : List ℚ) : List ℚ :=
  (List.range y.length).map (fun i : ℕ =>
    npMedian ((List.range 5).map (fun k : ℕ =>
      y.getD (reflectIdx y.length (Int.ofNat i + Int.ofNat k - 2)) 0)))

/-- Modelled from the spec: boxcar_smooth is imported from alderaan.utils,
which is not under src/.  Following section 4.8 of the spec (a
median-filtered then boxcar-smoothed baseline), it is modelled as the
moving average of the centred window of width winsize with the same mirrored
boundary handling as the median filter, so each output is a mean of winsize
actual samples. -/
def boxcar_smooth (y : List ℚ) (winsize : ℕ) : List ℚ :=
  (List.range y.length).map (fun i : ℕ =>
    ((List.range winsize).map
      (fun k : ℕ =>
        y.getD (reflectIdx y.length (Int.ofNat i + Int.ofNat k - Int.ofNat (winsize / 2))) 0)).sum
    / (winsize : ℚ))

/-- Residuals yomc - ymed of line 1422:
ymed = boxcar_smooth(median_filter(yomc, size=5, mode='mirror'), winsize=5). -/
def omcResiduals (y : List ℚ) : List ℚ :=
  List.zipWith (fun a b => a - b) y (boxcar_smooth (median_filter5 y) 5)

/-- astropy.stats.mad_std over the rationals: kappa * median(|x - median x|)
with kappa the normal-consistency constant (an abstract parameter here; the
floating-point value used by astropy is a particular rational). -/
def madStdQ (kappa : ℚ) (r : List ℚ) : ℚ :=
  kappa * npMedian (r.map (fun x => |x - npMedian r|))

/-- Outlier flags of line 1423: |yomc - ymed| / mad_std(yomc - ymed) > 5.0. -/
def omcOutlierFlags (kappa : ℚ) (y : List ℚ) : List Bool :=
  let r := omcResiduals y
  r.map (fun ri => decide ((5 : ℚ) < |ri| / madStdQ kappa r))

/-! ## LiteCurve and flatten_with_gp (detrend.py lines 106-266) -/

/-- The LiteCurve store: aligned arrays of a photometric segment. -/
structure LiteCurve where
  time : List ℚ
  flux : List ℚ
  error : List ℚ
  cadno : List ℤ
  quarter : List ℤ
  channel : List ℤ
  mask : List Bool

/-- Decrement the final entry of a list (gaps[-1] -= 1 at detrend.py
line 140). -/
def decLast (l : List ℕ) : List ℕ :=
  l.dropLast ++ (match l.getLast? with
    | none => []
    | some x => [x - 1])

/-- flatten_with_gp (detrend.py lines 106-266).  The Lomb-Scargle period
search, probabilistic model construction, staged optimization and GP
prediction run inside external solvers; they are abstracted by gpPredict,
which maps the (decremented) gap boundaries to the predicted full trend
(gp.predict(...) + trend_map['full_mean_pred'], line 258).  The tail of the
function (lines 260-266) divides lc.flux and lc.error elementwise by that
trend and returns the curve, together with the trend when return_trend is
set.  madStdVal is the opaque mad_std inside identify_gaps. -/
def flatten_with_gp (gpPredict : List ℕ → List ℚ) (madStdVal : ℚ)
    (lc : LiteCurve) (break_tolerance : ℕ) (return_trend : Bool) :
    LiteCurve × Option (List ℚ) :=
  let gaps := decLast (identify_gaps lc.cadno lc.flux lc.mask break_tolerance 5 madStdVal)
  let full_trend := gpPredict gaps
  ({ lc with
     flux := List.zipWith (fun a b => a / b) lc.flux full_trend,
     error := List.zipWith (fun a b => a / b) lc.error full_trend },
   if return_trend then some full_trend else none)

/-! ## basic lemmas about the helpers -/

lemma gapJumpLocs_eq_nil (flux : List ℚ) (madStdVal : ℚ) (mask : List Bool) :
    gapJumpLocs flux madStdVal mask = [] := by
  unfold gapJumpLocs npWhere identify_gaps_mask_scalar
  simp

lemma npWhere_eq_nil_of_all {p : α → Bool} {l : List α}
    (h : ∀ x ∈ l, p x = false) : npWhere p l = [] := by
  unfold npWhere
  have hf : List.filter (fun x => p x.2) l.enum = [] := by
    rw [List.filter_eq_nil_iff]
    intro x hx
    have hmem : x.2 ∈ l := List.getElem?_mem (List.mem_enum_iff_getElem?.mp hx)
    simp [h x.2 hmem]
  rw [hf]
  rfl

lemma length_npDiffZ (l : List ℤ) : (npDiffZ l).length = l.length - 1 := by
  unfold npDiffZ
  rw [List.length_zipWith, List.length_tail]
  omega

lemma gapBreakLocs_of_no_breaks {cadno : List ℤ} {bt : ℕ}
    (hne : cadno ≠ []) (hbt : 1 ≤ bt)
    (hsmall : ∀ d ∈ npDiffZ cadno, d ≤ (bt : ℤ)) :
    gapBreakLocs cadno bt = [0, cadno.length + 1] := by
  unfold gapBreakLocs
  have hw : npWhere (fun d => decide ((bt : ℤ) < d)) ((1 : ℤ) :: npDiffZ cadno) = [] := by
    apply npWhere_eq_nil_of_all
    intro x hx
    rcases List.mem_cons.mp hx with h | h
    · subst h
      simp only [decide_eq_false_iff_not, not_lt]
      exact_mod_cast hbt
    · simp only [decide_eq_false_iff_not, not_lt]
      exact hsmall x h
  show (0 : ℕ) :: npWhere (fun d => decide ((bt : ℤ) < d)) ((1 : ℤ) :: npDiffZ cadno)
      ++ [((1 : ℤ) :: npDiffZ cadno).length + 1] = [0, cadno.length + 1]
  rw [hw]
  have hlen : (npDiffZ cadno).length = cadno.length - 1 := length_npDiffZ cadno
  have hpos : 0 < cadno.length := List.length_pos.mpr hne
  simp only [List.nil_append, List.length_cons, hlen]
  have harith : cadno.length - 1 + 1 + 1 = cadno.length + 1 := by omega
  rw [harith]
  rfl

lemma sortUnique_pair {n : ℕ} (h : 0 < n) : sortUnique [0, n] = [0, n] := by
  unfold sortUnique
  have hs : List.insertionSort (· ≤ ·) [0, n] = [0, n] := by
    simp [List.insertionSort, List.orderedInsert]
  rw [hs]
  rw [List.dedup_cons_of_not_mem, List.dedup_cons_of_not_mem, List.dedup_nil]
  · simp
  · simp
    omega

lemma gapMergeClose_pair {n bt : ℕ} (h : ¬ (n < bt)) :
    gapMergeClose bt [0, n] = [0, n] := by
  unfold gapMergeClose
  have hd : decide ((n : ℤ) - (0 : ℕ) < (bt : ℕ)) = false := by
    simp only [decide_eq_false_iff_not]
    omega
  simp [npReject, hd, h]

/-- C2 amended: a nonempty LiteCurve whose cadence-to-cadence steps never
exceed break_tolerance (with 1 <= break_tolerance <= N + 1) yields exactly the
boundary list [0, N + 1]; the final entry is N + 1, not N, and is decremented
to N by the caller (flatten_with_gp, detrend.py line 140) before use.  The
flux-jump condition of the claim is irrelevant because the code never flags a
flux jump (see the C1 theorem), so no hypothesis on flux is required. -/
theorem identify_gaps_clean_curve (cadno : List ℤ) (flux : List ℚ) (mask : List Bool)
    (jt madStdVal : ℚ) (bt : ℕ)
    (hne : cadno ≠ []) (hbt : 1 ≤ bt)
    (hsmall : ∀ d ∈ npDiffZ cadno, d ≤ (bt : ℤ))
    (hlen : bt ≤ cadno.length + 1) :
    identify_gaps cadno flux mask bt jt madStdVal = [0, cadno.length + 1] := by
  unfold identify_gaps
  rw [gapJumpLocs_eq_nil, gapBreakLocs_of_no_breaks hne hbt hsmall]
  rw [List.append_nil, sortUnique_pair (by omega)]
  exact gapMergeClose_pair (by exact_mod_cast not_lt.mpr (by exact_mod_cast hlen))

/-- C2 witness: a strictly increasing 4-cadence curve with unit steps and
break_tolerance 2 gives boundaries [0, 5]. -/
theorem identify_gaps_clean_curve_witness :
    identify_gaps [1, 2, 3, 4] [] [] 2 5 1 = [0, 5] :=
  identify_gaps_clean_curve [1, 2, 3, 4] [] [] 5 1 2 (by decide) (by decide)
    (by decide) (by decide)

/-- C2 counterexample: for the length-4 curve with strictly increasing cadno,
no time gap and constant flux (hence no flux jump), identify_gaps returns
[0, 5], not the claimed [0, N] = [0, 4]. -/
theorem identify_gaps_c2_counterexample :
    identify_gaps [1, 2, 3, 4] [1, 1, 1, 1] [false, false, false, false] 2 5 1 ≠ [0, 4] ∧
    identify_gaps [1, 2, 3, 4] [1, 1, 1, 1] [false, false, false, false] 2 5 1 = [0, 5] := by
  constructor
  · intro h
    have h5 : identify_gaps [1, 2, 3, 4] [1, 1, 1, 1] [false, false, false, false] 2 5 1
        = [0, 5] := by
      simp only [identify_gaps, gapJumpLocs_eq_nil]
      decide
    rw [h5] at h
    simp at h
  · simp only [identify_gaps, gapJumpLocs_eq_nil]
    decide

/-- C1: identify_gaps never flags any flux jump, whatever the value of
jump_tolerance: the sigma threshold at detrend.py line 89 is the hardcoded
literal 5.0 rather than the jump_tolerance parameter, and the 1D mask of
line 78 (np.sum(np.atleast_2d(lc.mask, 0) == 0)) evaluates to the scalar 0,
so np.where(mask * big_jump) is always empty.  At the failing input below the
flux step of 100 between cadences 2 and 3 is an arbitrarily large sigma
deviation (the MAD of the differences is 0), yet the returned boundaries are
just [0, 8] for every jump_tolerance, every mask and every value of the
opaque mad_std. -/
theorem identify_gaps_never_flags_jumps :
    ∀ (jt madStdVal : ℚ) (mask : List Bool),
      identify_gaps [0, 1, 2, 3, 4, 5, 6] [1, 1, 1, 101, 1, 1, 1] mask 3 jt madStdVal
        = [0, 8] := by
  intro jt madStdVal mask
  simp only [identify_gaps, gapJumpLocs_eq_nil]
  decide

/-- C3 amended: the refit flag of transit i is set exactly when the flagged
slide uncertainty is NaN (none), or when no slide uncertainty at all is NaN
for that planet and i is one of the two randomly drawn indices r1, r2 that
the code marks for refitting in that edge case (detrend_and_estimate_ttvs.py
lines 1100-1103). -/
theorem mkRefit_exact (err : List (Option ℚ)) (r1 r2 : ℕ)
    (h1 : r1 < err.length) (h2 : r2 < err.length) (i : ℕ) (hi : i < err.length) :
    (mkRefit err r1 r2).getD i false = true ↔
      (err.getD i (some 0) = none ∨ ((∀ e ∈ err, e ≠ none) ∧ (i = r1 ∨ i = r2))) := by
  unfold mkRefit
  rw [List.getD_eq_getElem (d := some 0) err hi]
  by_cases hall : (err.map Option.isNone).all (fun b => !b) = true
  · have hnone : ∀ e ∈ err, e ≠ none := by
      intro e he hcon
      subst hcon
      have hx := List.all_eq_true.mp hall true (List.mem_map_of_mem Option.isNone he)
      simp at hx
    have hlen : (((err.map Option.isNone).set r1 true).set r2 true).length = err.length := by
      simp
    rw [if_pos hall, List.getD_eq_getElem _ false (by omega)]
    rw [List.getElem_set, List.getElem_set, List.getElem_map]
    have hne : err[i] ≠ none := hnone _ (List.getElem_mem hi)
    have hfalse : err[i].isNone = false := by
      rw [Option.isNone_eq_false_iff, Option.isSome_iff_ne_none]
      exact hne
    rw [hfalse]
    constructor
    · intro h
      right
      refine ⟨hnone, ?_⟩
      by_cases e2 : r2 = i
      · right; omega
      · rw [if_neg e2] at h
        by_cases e1 : r1 = i
        · left; omega
        · rw [if_neg e1] at h; simp at h
    · rintro (h | ⟨-, h | h⟩)
      · exact absurd h hne
      · subst h; simp
      · subst h; simp
  · have hex : ¬ (∀ e ∈ err, e ≠ none) := by
      intro hco
      apply hall
      rw [List.all_eq_true]
      intro b hb
      rcases List.mem_map.mp hb with ⟨e, he, rfl⟩
      have := hco e he
      simp [Option.isNone_eq_false_iff, Option.isSome_iff_ne_none, this]
    rw [if_neg hall, List.getD_eq_getElem _ false (by simpa using hi), List.getElem_map]
    rw [Option.isNone_iff_eq_none]
    constructor
    · intro h; exact Or.inl h
    · rintro (h | ⟨hco, -⟩)
      · exact h
      · exact absurd hco hex

/-- C3 witness: with slide uncertainties [some 1, none], transit 1 (NaN after
flagging) is selected for refitting. -/
theorem mkRefit_exact_witness :
    (mkRefit [some 1, none] 0 1).getD 1 false = true ↔
      (([some (1 : ℚ), none].getD 1 (some 0) = none ∨
        ((∀ e ∈ [some (1 : ℚ), none], e ≠ none) ∧ (1 = 0 ∨ 1 = 1)))) :=
  mkRefit_exact [some 1, none] 0 1 (by decide) (by decide) 1 (by decide)

/-- C3 counterexample: when every slide fit succeeded (no NaN uncertainty),
the code still marks two randomly chosen transits for refitting (here the
drawn indices are 0 and 1), so transits with successful slide fits are
re-fit, contradicting the claim that the refit set is exactly the
NaN-uncertainty set (which is empty here). -/
theorem mkRefit_c3_counterexample :
    mkRefit [some 1, some 1, some 1] 0 1 = [true, true, false] ∧
    List.map Option.isNone [some (1 : ℚ), some 1, some 1] = [false, false, false] ∧
    (mkRefit [some 1, some 1, some 1] 0 1).getD 0 false = true ∧
    ([some (1 : ℚ), some 1, some 1].getD 0 none).isSome = true := by
  refine ⟨by decide, by decide, by decide, by decide⟩

lemma powSum_cons (x : ℚ) (xs : List ℚ) (k : ℕ) :
    powSum (x :: xs) k = x ^ k + powSum xs k := by
  simp [powSum]

lemma mixSum_cons (x y : ℚ) (xs ys : List ℚ) (k : ℕ) :
    mixSum (x :: xs) (y :: ys) k = x ^ k * y + mixSum xs ys k := by
  simp [mixSum]

lemma mixSum_of_parabola (A B C : ℚ) (xs : List ℚ) (k : ℕ) :
    mixSum xs (xs.map (fun x => A * x ^ 2 + B * x + C)) k
      = A * powSum xs (k + 2) + B * powSum xs (k + 1) + C * powSum xs k := by
  induction xs with
  | nil => simp [mixSum, powSum]
  | cons x xs ih =>
    rw [List.map_cons, mixSum_cons, powSum_cons, powSum_cons, powSum_cons, ih]
    ring

lemma polyfit2_exact (A B C : ℚ) (xs : List ℚ) (hD : gramDet xs ≠ 0) :
    polyfit2 xs (xs.map (fun x => A * x ^ 2 + B * x + C)) = (A, B, C) := by
  unfold polyfit2
  dsimp only
  rw [mixSum_of_parabola A B C xs 0, mixSum_of_parabola A B C xs 1,
      mixSum_of_parabola A B C xs 2]
  unfold gramDet at hD
  have ea : det3 (A * powSum xs (2 + 2) + B * powSum xs (2 + 1) + C * powSum xs 2)
      (powSum xs 3) (powSum xs 2)
      (A * powSum xs (1 + 2) + B * powSum xs (1 + 1) + C * powSum xs 1)
      (powSum xs 2) (powSum xs 1)
      (A * powSum xs (0 + 2) + B * powSum xs (0 + 1) + C * powSum xs 0)
      (powSum xs 1) (powSum xs 0)
      = A * det3 (powSum xs 4) (powSum xs 3) (powSum xs 2)
          (powSum xs 3) (powSum xs 2) (powSum xs 1)
          (powSum xs 2) (powSum xs 1) (powSum xs 0) := by
    show det3 (A * powSum xs 4 + B * powSum xs 3 + C * powSum xs 2) _ _
        (A * powSum xs 3 + B * powSum xs 2 + C * powSum xs 1) _ _
        (A * powSum xs 2 + B * powSum xs 1 + C * powSum xs 0) _ _ = _
    unfold det3
    ring
  have eb : det3 (powSum xs 4)
      (A * powSum xs (2 + 2) + B * powSum xs (2 + 1) + C * powSum xs 2) (powSum xs 2)
      (powSum xs 3)
      (A * powSum xs (1 + 2) + B * powSum xs (1 + 1) + C * powSum xs 1) (powSum xs 1)
      (powSum xs 2)
      (A * powSum xs (0 + 2) + B * powSum xs (0 + 1) + C * powSum xs 0) (powSum xs 0)
      = B * det3 (powSum xs 4) (powSum xs 3) (powSum xs 2)
          (powSum xs 3) (powSum xs 2) (powSum xs 1)
          (powSum xs 2) (powSum xs 1) (powSum xs 0) := by
    show det3 _ (A * powSum xs 4 + B * powSum xs 3 + C * powSum xs 2) _
        _ (A * powSum xs 3 + B * powSum xs 2 + C * powSum xs 1) _
        _ (A * powSum xs 2 + B * powSum xs 1 + C * powSum xs 0) _ = _
    unfold det3
    ring
  have ec : det3 (powSum xs 4) (powSum xs 3)
      (A * powSum xs (2 + 2) + B * powSum xs (2 + 1) + C * powSum xs 2)
      (powSum xs 3) (powSum xs 2)
      (A * powSum xs (1 + 2) + B * powSum xs (1 + 1) + C * powSum xs 1)
      (powSum xs 2) (powSum xs 1)
      (A * powSum xs (0 + 2) + B * powSum xs (0 + 1) + C * powSum xs 0)
      = C * det3 (powSum xs 4) (powSum xs 3) (powSum xs 2)
          (powSum xs 3) (powSum xs 2) (powSum xs 1)
          (powSum xs 2) (powSum xs 1) (powSum xs 0) := by
    show det3 _ _ (A * powSum xs 4 + B * powSum xs 3 + C * powSum xs 2)
        _ _ (A * powSum xs 3 + B * powSum xs 2 + C * powSum xs 1)
        _ _ (A * powSum xs 2 + B * powSum xs 1 + C * powSum xs 0) = _
    unfold det3
    ring
  rw [ea, eb, ec]
  rw [mul_div_assoc, mul_div_assoc, mul_div_assoc, div_self hD]
  simp

/-- C4 amended: when the smoothed chi-square values at the retained grid
points lie on an exact parabola A t^2 + B t + C with A > 0 (and the fit's
Gram matrix is nonsingular, as numpy's least squares requires for a unique
solution), the recovered transit time is the mean of the parabola's vertex
-B/(2A) and the median of the retained grid points -- it equals the vertex
only when that median coincides with it -- and the reported uncertainty is
sqrt(1/A) (tracked here as its square 1/A). -/
theorem slide_quad_refinement (xs : List ℚ) (A B C : ℚ)
    (hD : gramDet xs ≠ 0) (hA : 0 < A) :
    quadA xs (xs.map (fun x => A * x ^ 2 + B * x + C)) = A ∧
    slideTTOf xs (xs.map (fun x => A * x ^ 2 + B * x + C))
      = (-B / (2 * A) + npMedian xs) / 2 ∧
    slideErrSqOf xs (xs.map (fun x => A * x ^ 2 + B * x + C)) = 1 / A := by
  have h := polyfit2_exact A B C xs hD
  refine ⟨?_, ?_, ?_⟩
  · rw [quadA, h]
  · rw [slideTTOf, quadVertex, quadA, quadB, h]
  · rw [slideErrSqOf, quadA, h]

/-- C4 witness: the parabola t^2 sampled at the grid [0, 1, 2]. -/
theorem slide_quad_refinement_witness :
    quadA [0, 1, 2] ([0, 1, 2].map (fun x => 1 * x ^ 2 + 0 * x + 0)) = 1 ∧
    slideTTOf [0, 1, 2] ([0, 1, 2].map (fun x => 1 * x ^ 2 + 0 * x + 0))
      = (-0 / (2 * 1) + npMedian [0, 1, 2]) / 2 ∧
    slideErrSqOf [0, 1, 2] ([0, 1, 2].map (fun x => 1 * x ^ 2 + 0 * x + 0)) = 1 / 1 :=
  slide_quad_refinement [0, 1, 2] 1 0 0 (by with_unfolding_all decide) (by norm_num)

/-- C4 counterexample: the chi-square values [1/4, 1/4, 9/4] at the retained
grid points [0, 1, 2] lie exactly on the upward parabola (t - 1/2)^2 with
vertex 1/2, yet the recovered transit time is 3/4 (the mean of the vertex and
the grid median 1), not the vertex. -/
theorem slide_quad_c4_counterexample :
    [(1 : ℚ)/4, 1/4, 9/4] = [0, 1, 2].map (fun x => (x - 1/2) ^ 2) ∧
    (0 : ℚ) < quadA [0, 1, 2] [1/4, 1/4, 9/4] ∧
    slideTTOf [0, 1, 2] [1/4, 1/4, 9/4] = 3/4 ∧
    ((3 : ℚ)/4) ≠ 1/2 := by
  refine ⟨by with_unfolding_all decide, by with_unfolding_all decide,
    by with_unfolding_all decide, by with_unfolding_all decide⟩

/-- C5: the GP-detrending fallback ladder.  A successful full model
(RotationTerm with ramp) is used as is; if it raises, the model is retried
without the ramp; if that raises too, the final attempt uses the SHOTerm
kernel without ramp and, being outside any try/except, its error propagates
to the caller unchanged. -/
theorem detrend_fallback_ladder {e a : Type} (attempt : KChoice → Bool → Except e a) :
    (∀ v, attempt KChoice.rotation true = Except.ok v →
      detrend_with_fallback attempt = Except.ok v) ∧
    (∀ e1 v, attempt KChoice.rotation true = Except.error e1 →
      attempt KChoice.rotation false = Except.ok v →
      detrend_with_fallback attempt = Except.ok v) ∧
    (∀ e1 e2, attempt KChoice.rotation true = Except.error e1 →
      attempt KChoice.rotation false = Except.error e2 →
      detrend_with_fallback attempt = attempt KChoice.sho false) ∧
    (∀ e1 e2 e3, attempt KChoice.rotation true = Except.error e1 →
      attempt KChoice.rotation false = Except.error e2 →
      attempt KChoice.sho false = Except.error e3 →
      detrend_with_fallback attempt = Except.error e3) := by
  refine ⟨?_, ?_, ?_, ?_⟩
  · intro v h1
    unfold detrend_with_fallback
    rw [h1]
  · intro e1 v h1 h2
    unfold detrend_with_fallback
    rw [h1, h2]
  · intro e1 e2 h1 h2
    unfold detrend_with_fallback
    rw [h1, h2]
  · intro e1 e2 e3 h1 h2 h3
    unfold detrend_with_fallback
    rw [h1, h2, h3]

/-- C5 witness: when every attempt raises, the error of the final SHOTerm
attempt is the one that propagates. -/
theorem detrend_fallback_ladder_witness :
    detrend_with_fallback (fun _ _ => (Except.error 7 : Except ℕ ℕ)) = Except.error 7 :=
  (detrend_fallback_ladder (fun _ _ => (Except.error 7 : Except ℕ ℕ))).2.2.2 7 7 7 rfl rfl rfl

/-- C7 amended: the slide fit stores NaN for a transit exactly when the
transit overlaps another planet, fewer than 3 retained grid points remain,
the fitted parabola has non-positive leading coefficient, or the recovered
time falls outside the range of the retained grid points tcfit (not the full
search window, as the claim states). -/
theorem slide_nan_iff (overlap : Bool) (tc x2 : List ℚ) :
    slideFitTransit overlap tc x2 = none ↔
      (overlap = true ∨
       (slideRetained tc x2).1.length < 3 ∨
       quadA (slideRetained tc x2).1 (slideRetained tc x2).2 ≤ 0 ∨
       slideTTOf (slideRetained tc x2).1 (slideRetained tc x2).2
         < listMinD (slideRetained tc x2).1 ∨
       listMaxD (slideRetained tc x2).1
         < slideTTOf (slideRetained tc x2).1 (slideRetained tc x2).2) := by
  unfold slideFitTransit
  dsimp only
  cases overlap
  · simp only [Bool.false_eq_true, if_false]
    split_ifs with hlen hA hout
    · simp [hlen]
    · simp [hA]
    · rcases hout with h | h
      · simp [h]
      · simp [h]
    · push_neg at hout
      constructor
      · intro h
        exact absurd h (by simp)
      · rintro (h | h | h | h | h)
        · simp at h
        · exact absurd h hlen
        · exact absurd h hA
        · exact absurd h (not_lt.mpr hout.1)
        · exact absurd h (not_lt.mpr hout.2)
  · simp

/-- C7 counterexample: on the grid [0,1,2,3,4] with smoothed chi-square
values [10,7,5,19,19] and no overlap, the retained points are [0,1,2] with 3
points and an upward parabola (a = 1/2), and the recovered time 9/4 lies
inside the search window [0,4]; the claim therefore predicts a successful
fit, but the code rejects it (NaN) because 9/4 exceeds the retained-point
maximum 2. -/
theorem slide_nan_c7_counterexample :
    slideFitTransit false [0, 1, 2, 3, 4] [10, 7, 5, 19, 19] = none ∧
    slideRetained [0, 1, 2, 3, 4] [10, 7, 5, 19, 19] = ([0, 1, 2], [10, 7, 5]) ∧
    (0 : ℚ) < quadA [0, 1, 2] [10, 7, 5] ∧
    slideTTOf [0, 1, 2] [10, 7, 5] = 9/4 ∧
    listMinD [0, 1, 2, 3, 4] ≤ 9/4 ∧ (9/4 : ℚ) ≤ listMaxD [0, 1, 2, 3, 4] := by
  refine ⟨by with_unfolding_all decide, by with_unfolding_all decide,
    by with_unfolding_all decide, by with_unfolding_all decide,
    by with_unfolding_all decide, by with_unfolding_all decide⟩

lemma getD_mem_of_lt (l : List ℚ) (j : ℕ) (h : j < l.length) : l.getD j 0 ∈ l := by
  rw [List.getD_eq_getElem l 0 h]
  exact List.getElem_mem h

lemma npArgminGo_spec (l : List ℚ) : ∀ (i bi : ℕ) (bv : ℚ),
    (npArgminGo l i bi bv = bi ∧ ∀ x ∈ l, bv ≤ x) ∨
    (∃ k, k < l.length ∧ npArgminGo l i bi bv = i + k ∧
      l.getD k 0 < bv ∧ ∀ x ∈ l, l.getD k 0 ≤ x) := by
  induction l with
  | nil =>
    intro i bi bv
    left
    exact ⟨rfl, by simp⟩
  | cons x xs ih =>
    intro i bi bv
    unfold npArgminGo
    by_cases hx : x < bv
    · rw [if_pos hx]
      right
      rcases ih (i + 1) i x with ⟨heq, hall⟩ | ⟨k, hk, heq, hlt, hall⟩
      · refine ⟨0, by simp, by simpa using heq, by simpa using hx, ?_⟩
        simp only [List.getD_cons_zero]
        exact List.forall_mem_cons.mpr ⟨le_refl x, hall⟩
      · refine ⟨k + 1, by simpa using hk, by rw [heq]; omega, ?_, ?_⟩
        · simpa only [List.getD_cons_succ] using hlt.trans hx
        · simp only [List.getD_cons_succ]
          exact List.forall_mem_cons.mpr ⟨hlt.le, hall⟩
    · rw [if_neg hx]
      rcases ih (i + 1) bi bv with ⟨heq, hall⟩ | ⟨k, hk, heq, hlt, hall⟩
      · left
        exact ⟨heq, List.forall_mem_cons.mpr ⟨not_lt.mp hx, hall⟩⟩
      · right
        refine ⟨k + 1, by simpa using hk, by rw [heq]; omega, ?_, ?_⟩
        · simpa only [List.getD_cons_succ] using hlt
        · simp only [List.getD_cons_succ]
          exact List.forall_mem_cons.mpr ⟨(hlt.trans_le (not_lt.mp hx)).le, hall⟩

lemma npArgmin_spec (l : List ℚ) (h : l ≠ []) :
    npArgmin l < l.length ∧ ∀ j, j < l.length → l.getD (npArgmin l) 0 ≤ l.getD j 0 := by
  match l with
  | x :: xs =>
    rcases npArgminGo_spec xs 1 0 x with ⟨heq, hall⟩ | ⟨k, hk, heq, hlt, hall⟩
    · rw [show npArgmin (x :: xs) = npArgminGo xs 1 0 x from rfl, heq]
      refine ⟨by simp, ?_⟩
      intro j hj
      rw [List.getD_cons_zero]
      match j with
      | 0 => simp
      | j + 1 =>
        rw [List.getD_cons_succ]
        exact hall _ (getD_mem_of_lt xs j (by simpa using hj))
    · rw [show npArgmin (x :: xs) = npArgminGo xs 1 0 x from rfl, heq]
      have hone : 1 + k = k + 1 := by omega
      rw [hone]
      refine ⟨by simpa using hk, ?_⟩
      intro j hj
      rw [List.getD_cons_succ]
      match j with
      | 0 =>
        rw [List.getD_cons_zero]
        exact hlt.le
      | j + 1 =>
        rw [List.getD_cons_succ]
        exact hall _ (getD_mem_of_lt xs j (by simpa using hj))

lemma length_omcAIClist (lg : ℚ → ℚ) (n : ℕ) (fits : List (List ℚ × List Bool)) :
    (omcAIClist lg n fits).length = fits.length := by
  unfold omcAIClist
  rw [List.length_map, List.enum_length]

lemma omcAIClist_getD (lg : ℚ → ℚ) (n : ℕ) (fits : List (List ℚ × List Bool))
    (j : ℕ) (hj : j < fits.length) :
    (omcAIClist lg n fits).getD j 0
      = (n : ℚ) * lg ((((npReject (fits.getD j ([], [])).1 (fits.getD j ([], [])).2).map
            (fun x => x ^ 2)).sum)
          / ((npReject (fits.getD j ([], [])).1 (fits.getD j ([], [])).2).length : ℚ))
        + 2 * (if j ≤ 1 then (3 : ℚ) else (j : ℚ)) := by
  unfold omcAIClist
  rw [List.getD_eq_getElem _ 0 (by rw [List.length_map, List.enum_length]; exact hj)]
  rw [List.getElem_map, List.getElem_enum]
  unfold aicScore
  dsimp only
  rw [List.getD_eq_getElem _ _ hj]
  congr 1
  unfold kOfPolyorder
  by_cases hj1 : j ≤ 1
  · rw [if_pos (by omega : (j : ℤ) - 1 ≤ 0), if_pos hj1]
    norm_num
  · rw [if_neg (by omega : ¬ ((j : ℤ) - 1 ≤ 0)), if_neg hj1]
    have hcast : ((j : ℤ) - 1 + 1 : ℤ) = (j : ℤ) := by omega
    rw [hcast]
    push_cast
    ring

/-- C6: each candidate score in the OMC model-selection loop is
AIC = n * log(sum of squared residuals over the mixture-model inliers divided
by the inlier count) + 2k, with k = 3 for the Matern-3/2 GP (candidate 0,
polyorder -1) and the sinusoid (candidate 1, polyorder 0) and k = polyorder+1
= j for the polynomial candidate j of order j-1; the chosen index np.argmin
attains the minimal AIC, and the selected polyorder is that index minus 1.
lg abstracts np.log, so the statement holds for the actual logarithm. -/
theorem omc_model_selection (lg : ℚ → ℚ) (n : ℕ) (fits : List (List ℚ × List Bool))
    (hne : fits ≠ []) :
    (∀ j, j < fits.length →
      (omcAIClist lg n fits).getD j 0
        = (n : ℚ) * lg ((((npReject (fits.getD j ([], [])).1 (fits.getD j ([], [])).2).map
              (fun x => x ^ 2)).sum)
            / ((npReject (fits.getD j ([], [])).1 (fits.getD j ([], [])).2).length : ℚ))
          + 2 * (if j ≤ 1 then (3 : ℚ) else (j : ℚ))) ∧
    npArgmin (omcAIClist lg n fits) < fits.length ∧
    (∀ j, j < fits.length →
      (omcAIClist lg n fits).getD (npArgmin (omcAIClist lg n fits)) 0
        ≤ (omcAIClist lg n fits).getD j 0) ∧
    omcSelectedPolyorder lg n fits = (npArgmin (omcAIClist lg n fits) : ℤ) - 1 := by
  have hlen := length_omcAIClist lg n fits
  have hnil : omcAIClist lg n fits ≠ [] := by
    intro hcon
    apply hne
    have := congrArg List.length hcon
    rw [hlen] at this
    exact List.length_eq_zero.mp this
  obtain ⟨h1, h2⟩ := npArgmin_spec _ hnil
  refine ⟨fun j hj => omcAIClist_getD lg n fits j hj, by omega, ?_, rfl⟩
  intro j hj
  exact h2 j (by omega)

/-- C6 witness: with the identity in place of log, a single candidate
(residuals [1], no outliers), its AIC evaluates by the stated formula. -/
theorem omc_model_selection_witness :
    (omcAIClist id 1 [([1], [false])]).getD 0 0
      = (1 : ℚ) * id ((((npReject ([([(1 : ℚ)], [false])].getD 0 ([], [])).1
            ([([(1 : ℚ)], [false])].getD 0 ([], [])).2).map (fun x => x ^ 2)).sum)
          / ((npReject ([([(1 : ℚ)], [false])].getD 0 ([], [])).1
            ([([(1 : ℚ)], [false])].getD 0 ([], [])).2).length : ℚ))
        + 2 * (if 0 ≤ 1 then (3 : ℚ) else ((0 : ℕ) : ℚ)) :=
  (omc_model_selection id 1 [([1], [false])] (by simp)).1 0 (by norm_num)

lemma transitmask_fold_getD (time : List ℚ) (ms : ℚ) (ts : List ℚ) :
    ∀ (acc : List Bool), acc.length = time.length → ∀ i, i < time.length →
      (ts.foldl (fun acc t0 => List.zipWith (fun b x => b || decide (|x - t0| < ms)) acc time)
          acc).getD i false
        = (acc.getD i false || ts.any (fun t0 => decide (|time.getD i 0 - t0| < ms))) := by
  induction ts with
  | nil =>
    intro acc hlen i hi
    simp
  | cons t ts ih =>
    intro acc hlen i hi
    rw [List.foldl_cons]
    rw [ih _ (by rw [List.length_zipWith]; omega) i hi]
    have hz : (List.zipWith (fun b x => b || decide (|x - t| < ms)) acc time).getD i false
        = (acc.getD i false || decide (|time.getD i 0 - t| < ms)) := by
      rw [List.getD_eq_getElem _ _ (by rw [List.length_zipWith]; omega)]
      rw [List.getElem_zipWith]
      rw [List.getD_eq_getElem _ _ (by omega), List.getD_eq_getElem _ _ hi]
    rw [hz, List.any_cons, Bool.or_assoc]

lemma make_transitmask_getD (time tts : List ℚ) (ms : ℚ) (i : ℕ) (hi : i < time.length) :
    (make_transitmask time tts ms).getD i false
      = (tts.filter (fun t => decide (listMinD time ≤ t) && decide (t ≤ listMaxD time))).any
          (fun t0 => decide (|time.getD i 0 - t0| < ms)) := by
  unfold make_transitmask
  dsimp only
  rw [transitmask_fold_getD time ms _ _ (by simp) i hi]
  have hinit : ((time.map (fun _ => false)).getD i false) = false := by
    rw [List.getD_eq_getElem _ _ (by simpa using hi), List.getElem_map]
  rw [hinit, Bool.false_or]

/-- C8: the transit mask is true at cadence i exactly when some supplied
transit time inside the observed time range [min time, max time] lies within
masksize of time[i] (strict inequality, as in the source comparison
np.abs(time - t0) < masksize); and on the spec's concrete example
tts = [5.0], masksize = 0.5, time = [4.4, 4.6, 5.4, 5.6] the mask is
[False, True, True, False]. -/
theorem make_transitmask_spec :
    (∀ (time tts : List ℚ) (ms : ℚ) (i : ℕ), i < time.length →
      ((make_transitmask time tts ms).getD i false = true ↔
        ∃ t0 ∈ tts, listMinD time ≤ t0 ∧ t0 ≤ listMaxD time ∧
          |time.getD i 0 - t0| < ms)) ∧
    make_transitmask [22/5, 23/5, 27/5, 28/5] [5] (1/2) = [false, true, true, false] := by
  constructor
  · intro time tts ms i hi
    rw [make_transitmask_getD time tts ms i hi, List.any_eq_true]
    constructor
    · rintro ⟨t0, ht0, hd⟩
      rcases List.mem_filter.mp ht0 with ⟨hmem, hcond⟩
      simp only [Bool.and_eq_true, decide_eq_true_eq] at hcond
      simp only [decide_eq_true_eq] at hd
      exact ⟨t0, hmem, hcond.1, hcond.2, hd⟩
    · rintro ⟨t0, hmem, h1, h2, h3⟩
      exact ⟨t0, List.mem_filter.mpr ⟨hmem, by simp [h1, h2]⟩, by simpa using h3⟩
  · with_unfolding_all decide

/-- C8 witness: cadence 1 of the concrete example is masked because the
transit time 5.0 is in range and within 0.5 of time[1] = 4.6. -/
theorem make_transitmask_spec_witness :
    (make_transitmask [22/5, 23/5, 27/5, 28/5] [5] (1/2)).getD 1 false = true :=
  (make_transitmask_spec.1 [22/5, 23/5, 27/5, 28/5] [5] (1/2) 1 (by norm_num)).mpr
    ⟨5, by simp, by with_unfolding_all decide, by with_unfolding_all decide,
      by with_unfolding_all decide⟩

lemma sum_map_add (l : List ℚ) (c : ℚ) :
    (l.map (fun t => t + c)).sum = l.sum + l.length * c := by
  induction l with
  | nil => simp
  | cons x xs ih =>
    simp only [List.map_cons, List.sum_cons, List.length_cons, ih]
    push_cast
    ring

lemma orderedInsert_map_add (c x : ℚ) (l : List ℚ) :
    List.orderedInsert (· ≤ ·) (x + c) (l.map (fun t => t + c))
      = (List.orderedInsert (· ≤ ·) x l).map (fun t => t + c) := by
  induction l with
  | nil => simp [List.orderedInsert]
  | cons y ys ih =>
    simp only [List.map_cons, List.orderedInsert]
    by_cases h : x ≤ y
    · rw [if_pos h, if_pos (add_le_add_right h c)]
      simp
    · have hnc : ¬ (x + c ≤ y + c) := fun hc => h (by linarith)
      rw [if_neg h, if_neg hnc, List.map_cons, ih]

lemma insertionSort_map_add (c : ℚ) (l : List ℚ) :
    (l.map (fun t => t + c)).insertionSort (· ≤ ·)
      = (l.insertionSort (· ≤ ·)).map (fun t => t + c) := by
  induction l with
  | nil => simp
  | cons x xs ih =>
    simp only [List.map_cons, List.insertionSort, ih, orderedInsert_map_add]

lemma getD_map_add (l : List ℚ) (c : ℚ) (j : ℕ) (hj : j < l.length) :
    (l.map (fun t => t + c)).getD j 0 = l.getD j 0 + c := by
  rw [List.getD_eq_getElem _ _ (by simpa using hj), List.getElem_map,
      List.getD_eq_getElem _ _ hj]

lemma npMedian_map_add (l : List ℚ) (c : ℚ) (h : l ≠ []) :
    npMedian (l.map (fun t => t + c)) = npMedian l + c := by
  unfold npMedian
  dsimp only
  rw [List.length_map, insertionSort_map_add]
  have hn : l.length ≠ 0 := by simpa using h
  have hlen : (l.insertionSort (· ≤ ·)).length = l.length := List.length_insertionSort _ l
  rw [if_neg hn, if_neg hn]
  by_cases hodd : l.length % 2 = 1
  · rw [if_pos hodd, if_pos hodd, getD_map_add _ _ _ (by rw [hlen]; omega)]
  · rw [if_neg hodd, if_neg hodd, getD_map_add _ _ _ (by rw [hlen]; omega),
        getD_map_add _ _ _ (by rw [hlen]; omega)]
    ring

lemma reflectIdx_lt (n : ℕ) (i : ℤ) (h : 0 < n) : reflectIdx n i < n := by
  unfold reflectIdx
  by_cases h1 : n ≤ 1
  · rw [if_pos h1]
    omega
  · rw [if_neg h1]
    dsimp only
    have hm0 : 0 ≤ i % (2 * (n : ℤ) - 2) := Int.emod_nonneg i (by omega)
    have hm1 : i % (2 * (n : ℤ) - 2) < 2 * (n : ℤ) - 2 :=
      Int.emod_lt_of_pos i (by omega)
    by_cases h2 : i % (2 * (n : ℤ) - 2) < (n : ℤ)
    · rw [if_pos h2]
      omega
    · rw [if_neg h2]
      omega

lemma median_filter5_map_add (y : List ℚ) (c : ℚ) :
    median_filter5 (y.map (fun t => t + c)) = (median_filter5 y).map (fun t => t + c) := by
  unfold median_filter5
  rw [List.length_map, List.map_map]
  apply List.map_congr_left
  intro i hi
  have hpos : 0 < y.length := by
    have := List.mem_range.mp hi
    omega
  have hw : (List.range 5).map
        (fun k : ℕ =>
          (y.map (fun t => t + c)).getD (reflectIdx y.length (Int.ofNat i + Int.ofNat k - 2)) 0)
      = ((List.range 5).map
          (fun k : ℕ => y.getD (reflectIdx y.length (Int.ofNat i + Int.ofNat k - 2)) 0)).map
          (fun t => t + c) := by
    rw [List.map_map]
    apply List.map_congr_left
    intro k _
    exact getD_map_add y c _ (reflectIdx_lt _ _ hpos)
  rw [hw, npMedian_map_add _ c (by simp)]
  rfl

lemma boxcar_smooth_map_add (z : List ℚ) (c : ℚ) (w : ℕ) (hw : w ≠ 0) :
    boxcar_smooth (z.map (fun t => t + c)) w = (boxcar_smooth z w).map (fun t => t + c) := by
  unfold boxcar_smooth
  rw [List.length_map, List.map_map]
  apply List.map_congr_left
  intro i hi
  have hpos : 0 < z.length := by
    have := List.mem_range.mp hi
    omega
  have hwin : (List.range w).map
        (fun k : ℕ => (z.map (fun t => t + c)).getD
          (reflectIdx z.length (Int.ofNat i + Int.ofNat k - Int.ofNat (w / 2))) 0)
      = ((List.range w).map
          (fun k : ℕ =>
            z.getD (reflectIdx z.length (Int.ofNat i + Int.ofNat k - Int.ofNat (w / 2))) 0)).map
          (fun t => t + c) := by
    rw [List.map_map]
    apply List.map_congr_left
    intro k _
    exact getD_map_add z c _ (reflectIdx_lt _ _ hpos)
  rw [hwin, sum_map_add, List.length_map, List.length_range]
  have hwq : (w : ℚ) ≠ 0 := Nat.cast_ne_zero.mpr hw
  show (_ + (w : ℚ) * c) / (w : ℚ) = _
  rw [add_div, mul_comm (w : ℚ) c, mul_div_assoc, div_self hwq, mul_one]
  rfl

lemma omcResiduals_map_add (y : List ℚ) (c : ℚ) :
    omcResiduals (y.map (fun t => t + c)) = omcResiduals y := by
  unfold omcResiduals
  rw [median_filter5_map_add, boxcar_smooth_map_add _ _ 5 (by norm_num)]
  rw [List.zipWith_map]
  have hfun : (fun (a b : ℚ) => (a + c) - (b + c)) = (fun (a b : ℚ) => a - b) := by
    funext a b
    ring
  rw [hfun]

/-- C9: the MAD-based O-C outlier flags are invariant under an additive shift
of the whole series: the median-filtered, boxcar-smoothed baseline shifts
along with the data, so the residuals -- and therefore the flags, whatever
the MAD scale constant kappa -- are unchanged. -/
theorem omc_outlier_flags_shift_invariant (kappa c : ℚ) (y : List ℚ) :
    omcOutlierFlags kappa (y.map (fun t => t + c)) = omcOutlierFlags kappa y := by
  unfold omcOutlierFlags
  rw [omcResiduals_map_add]

/-- C10: flatten_with_gp changes only the flux and error arrays, dividing
both elementwise by the same predicted trend; time, cadno, quarter, channel
and mask pass through untouched, and with return_trend set the returned trend
is exactly the divisor array. -/
theorem flatten_with_gp_frame (gpPredict : List ℕ → List ℚ) (madStdVal : ℚ)
    (lc : LiteCurve) (bt : ℕ) :
    (flatten_with_gp gpPredict madStdVal lc bt true).1.time = lc.time ∧
    (flatten_with_gp gpPredict madStdVal lc bt true).1.cadno = lc.cadno ∧
    (flatten_with_gp gpPredict madStdVal lc bt true).1.quarter = lc.quarter ∧
    (flatten_with_gp gpPredict madStdVal lc bt true).1.channel = lc.channel ∧
    (flatten_with_gp gpPredict madStdVal lc bt true).1.mask = lc.mask ∧
    (flatten_with_gp gpPredict madStdVal lc bt true).1.flux
      = List.zipWith (fun a b => a / b) lc.flux
          (gpPredict (decLast (identify_gaps lc.cadno lc.flux lc.mask bt 5 madStdVal))) ∧
    (flatten_with_gp gpPredict madStdVal lc bt true).1.error
      = List.zipWith (fun a b => a / b) lc.error
          (gpPredict (decLast (identify_gaps lc.cadno lc.flux lc.mask bt 5 madStdVal))) ∧
    (flatten_with_gp gpPredict madStdVal lc bt true).2
      = some (gpPredict (decLast (identify_gaps lc.cadno lc.flux lc.mask bt 5 madStdVal))) :=
  ⟨rfl, rfl, rfl, rfl, rfl, rfl, rfl, rfl⟩

end Alderaan
